import Mathlib

/-!
Verification development for the S5i RF-generator driver (`S5i_module.py`):
a shallow embedding of the frequency-planning and register-encoding code of
`S5i_module.set_frequency`, `S5i_module.set_frequency_optimally`,
`S5i_module.enable_output_soft` and the constructor, together with theorems
about the planner and encoder.

Frequencies and stepsizes are embedded as exact rationals (`ℚ`); Python's
arbitrary-precision integers are `ℤ`/`ℕ`; the 6-entry register list is a
record of six natural-number words; each `raise` site of the Python code is
an explicit error constructor; the transport write is the list of byte
vectors handed to `spi_rack.write_data`.
-/

/-- Python `int(x)` on a float/rational: truncation toward zero. -/
def pyTrunc (q : ℚ) : ℤ := if 0 ≤ q then ⌊q⌋ else -⌊-q⌋

/-- Python `a % b` on floats (`b ≠ 0`): `a - b*⌊a/b⌋`, sign of the divisor. -/
def pyMod (a b : ℚ) : ℚ := a - b * ⌊a / b⌋

/-- `numpy.around` on a scalar: round half to even. -/
def rhe (q : ℚ) : ℤ :=
  if q - ⌊q⌋ < 1/2 then ⌊q⌋
  else if 1/2 < q - ⌊q⌋ then ⌊q⌋ + 1
  else if ⌊q⌋ % 2 = 0 then ⌊q⌋ else ⌊q⌋ + 1

/-- The six ADF4351 registers `self.registers[0..5]`. -/
structure Regs where
  r0 : ℕ
  r1 : ℕ
  r2 : ℕ
  r3 : ℕ
  r4 : ℕ
  r5 : ℕ

/-- The S5i module state relevant to frequency planning:
`rf_frequency`, `stepsize`, `ref_frequency`, `spi_rack.ref_frequency`
(the backplane reference used by `set_frequency_optimally`),
`output_status` and the register file. -/
structure S5iState where
  rf_frequency : ℚ
  stepsize : ℚ
  ref_frequency : ℚ
  spi_ref : ℚ
  output_status : ℕ
  registers : Regs

/-- One error constructor per `raise`/runtime-error site reachable in the
embedded methods: the explicit `ValueError`s of the Python code, plus
Python's `ZeroDivisionError` and `numpy.argmin`'s error on an empty array. -/
inductive SpiErr where
  | rangeErr      -- frequency outside [40e6, 4.4e9]
  | gridErr       -- frequency not an integer multiple of stepsize
  | intRangeErr   -- INT outside [Nmin, 65535]
  | zeroDiv       -- ZeroDivisionError
  | emptyArgmin   -- np.argmin on an empty candidate array
  deriving DecidableEq

/-- `write_registers`: bytes of one register word, big-endian (`b1..b4`). -/
def regBytes (reg : ℕ) : List ℕ :=
  [(reg >>> 24) &&& 255, (reg >>> 16) &&& 255, (reg >>> 8) &&& 255, reg &&& 255]

/-- `write_registers`: the byte vectors written to the transport, REG5 down
to REG0 (reversed storage order). -/
def write_registers (r : Regs) : List (List ℕ) :=
  [regBytes r.r5, regBytes r.r4, regBytes r.r3, regBytes r.r2, regBytes r.r1, regBytes r.r0]

/-- The VCO-divider search loop body condition: `2.2e9 <= 2**n * f <= 4.4e9`. -/
def vcoOK (f : ℚ) (n : ℕ) : Prop := 2.2e9 ≤ 2^n * f ∧ 2^n * f ≤ 4.4e9

instance (f : ℚ) (n : ℕ) : Decidable (vcoOK f n) := by
  unfold vcoOK; infer_instance

/-- The `for n in range(0,7)` loop of `set_frequency` /
`set_frequency_optimally`: first `n` (from `n₀`, with `fuel` iterations
left) whose VCO frequency is in range; `div` stays `0` if none is. -/
def divSearch (f : ℚ) : ℕ → ℕ → ℕ
  | 0, _ => 0
  | fuel + 1, n => if vcoOK f n then n else divSearch f fuel (n + 1)

/-- The VCO output divider exponent `div` computed by both planner methods. -/
def computeDiv (f : ℚ) : ℕ := divSearch f 7 0

/-- The band-select computation shared by both planner methods:
`band_sel = 1`, replaced by `ceil(fpfd/10e3)` when `fpfd > 10e3`, then
clamped to at most `255`. -/
def bandSelect (fpfd : ℚ) : ℕ :=
  let b := if fpfd > 10e3 then (⌈fpfd / 10e3⌉).toNat else 1
  if b > 255 then 255 else b

/-- Result of an embedded `set_frequency` call: the (possibly unchanged)
state, the raised error if any, and the byte vectors sent to the transport. -/
structure SFResult where
  state : S5iState
  err : Option SpiErr
  sent : List (List ℕ)

/-- Shallow embedding of `S5i_module.set_frequency` (S5i_module.py lines
123–182).  Register words are rebuilt exactly as in the source; validation
failures return the untouched state. -/
def set_frequency (st : S5iState) (f : ℚ) : SFResult :=
  if f > 4.4e9 ∨ f < 40e6 then ⟨st, some .rangeErr, []⟩
  else
    let div := computeDiv f
    let prescaler : ℕ := if f ≥ 3.6e9 then 1 else 0
    let Nmin : ℤ := if f ≥ 3.6e9 then 75 else 23
    if st.stepsize = 0 then ⟨st, some .zeroDiv, []⟩
    else
      let R : ℤ := pyTrunc (st.ref_frequency / st.stepsize)
      if pyMod f st.stepsize ≠ 0 then ⟨st, some .gridErr, []⟩
      else
        let INT : ℤ := pyTrunc (f / st.stepsize)
        if INT < Nmin ∨ INT > 65535 then ⟨st, some .intRangeErr, []⟩
        else if R = 0 then ⟨st, some .zeroDiv, []⟩
        else
          let fpfd := st.ref_frequency / (R : ℚ)
          let band_sel := bandSelect fpfd
          let regs' : Regs :=
            { st.registers with
              r4 := (div <<< 20) ||| (band_sel <<< 12) ||| (st.output_status <<< 5) ||| (3 <<< 3) ||| 4
              r2 := (R.toNat <<< 14) ||| (1 <<< 13) ||| (7 <<< 9) ||| (1 <<< 8) ||| (1 <<< 7) ||| (1 <<< 6) ||| 2
              r1 := (prescaler <<< 27) ||| (1 <<< 15) ||| (2 <<< 3) ||| 1
              r0 := INT.toNat <<< 15 }
          let st' := { st with rf_frequency := f, registers := regs' }
          ⟨st', none, write_registers regs'⟩

/-- `np.arange(lo, hi)` on integers: the ascending list `[lo, hi)`
(empty when `hi ≤ lo`). -/
def candList (lo : ℕ) (hi : ℤ) : List ℕ :=
  (List.range (hi - lo).toNat).map (· + lo)

/-- The per-candidate deviation `|R_t - np.around(R_t)|` with
`R_t = N * fref / f`, minimized by `np.argmin` in
`set_frequency_optimally`. -/
def dev (fref f : ℚ) (N : ℕ) : ℚ :=
  |(N : ℚ) * fref / f - (rhe ((N : ℚ) * fref / f) : ℚ)|

/-- Tail of the `np.argmin` scan: best candidate so far `bN` with deviation
`bv`; a later candidate replaces it only on strictly smaller deviation
(`np.argmin` keeps the first occurrence of the minimum). -/
def pickBestAux (fref f : ℚ) : List ℕ → ℕ → ℚ → ℕ
  | [], bN, _ => bN
  | N :: Ns, bN, bv =>
    if dev fref f N < bv then pickBestAux fref f Ns N (dev fref f N)
    else pickBestAux fref f Ns bN bv

/-- `n[np.argmin(np.abs(R_t - R_t_r))]`: the first candidate of the list
minimizing the deviation; `none` on an empty candidate array (where
`np.argmin` raises). -/
def pickBest (fref f : ℚ) : List ℕ → Option ℕ
  | [] => none
  | N :: Ns => some (pickBestAux fref f Ns N (dev fref f N))

/-- The feedback integer `INT = n[index]` chosen by
`set_frequency_optimally` (S5i_module.py lines 218–226): first minimizer of
the deviation over `np.arange(Nmin, int(1023*f/fref))`. -/
def optimalPlanN (fref f : ℚ) (Nmin : ℕ) : Option ℕ :=
  pickBest fref f (candList Nmin (pyTrunc (1023 * f / fref)))

/-- Result of an embedded `set_frequency_optimally` call: final state,
raised error if any, transmitted byte vectors, the Python return value
(`ret`, always `None` in the source), and whether the
closest-frequency warning was printed. -/
structure SFOResult where
  state : S5iState
  err : Option SpiErr
  sent : List (List ℕ)
  ret : Option ℚ
  warned : Bool

/-- Shallow embedding of `S5i_module.set_frequency_optimally`
(S5i_module.py lines 184–249).  `fref` is the backplane reference
`spi_rack.ref_frequency`; the candidate array is `np.arange(Nmin, Nmax)`;
`R` is `int(np.around(n[index]*fref/f))`; the method stores the achieved
frequency in `rf_frequency`, prints a warning when it differs from the
request, and returns `None`. -/
def set_frequency_optimally (st : S5iState) (f : ℚ) : SFOResult :=
  if f > 4.4e9 ∨ f < 40e6 then ⟨st, some .rangeErr, [], none, false⟩
  else
    let fref := st.spi_ref
    let div := computeDiv f
    let prescaler : ℕ := if f ≥ 3.6e9 then 1 else 0
    let Nmin : ℕ := if f ≥ 3.6e9 then 75 else 23
    if fref = 0 then ⟨st, some .zeroDiv, [], none, false⟩
    else
      match optimalPlanN fref f Nmin with
      | none => ⟨st, some .emptyArgmin, [], none, false⟩
      | some N =>
        let R : ℤ := rhe ((N : ℚ) * fref / f)
        if R = 0 then ⟨st, some .zeroDiv, [], none, false⟩
        else
          let actual := (N : ℚ) * fref / (R : ℚ)
          let warned := decide (actual ≠ f)
          let fpfd := fref / (R : ℚ)
          let band_sel := bandSelect fpfd
          let regs' : Regs :=
            { st.registers with
              r4 := (div <<< 20) ||| (band_sel <<< 12) ||| (st.output_status <<< 5) ||| (3 <<< 3) ||| 4
              r2 := (R.toNat <<< 14) ||| (1 <<< 13) ||| (7 <<< 9) ||| (1 <<< 8) ||| (1 <<< 7) ||| (1 <<< 6) ||| 2
              r1 := (prescaler <<< 27) ||| (2 <<< 3) ||| 1
              r0 := N <<< 15 }
          let st' := { st with rf_frequency := actual, registers := regs' }
          ⟨st', none, write_registers regs', none, warned⟩

/-- Shallow embedding of `S5i_module.enable_output_soft` (lines 84–97):
normalizes `enable` to `{0,1}`, clears and re-sets bit 5 of REG4, writes
the registers and stores the new `output_status`. -/
def enable_output_soft (st : S5iState) (enable : ℕ) : S5iState × List (List ℕ) :=
  let e : ℕ := if enable ≠ 0 then 1 else 0
  let regs' : Regs :=
    { st.registers with r4 := (st.registers.r4 &&& 0xFFFFFFDF) ||| (e <<< 5) }
  (⟨st.rf_frequency, st.stepsize, st.ref_frequency, st.spi_ref, e, regs'⟩,
    write_registers regs')

/-- The state assembled by `S5i_module.__init__` (lines 18–52) just before
its final `set_frequency(frequency)` call: `stepsize = 1e6`,
`ref_frequency = 10e6`, registers all zero except the static configuration
words `registers[3]` (ABP and CHARGE CANCEL) and `registers[5]`
(LD PIN MODE). -/
def preInitState (spiRef f : ℚ) (enable : ℕ) : S5iState :=
  ⟨f, 1e6, 10e6, spiRef, enable,
    ⟨0, 0, 0, (1 <<< 22) ||| (1 <<< 21) ||| 3, 0, (1 <<< 22) ||| (3 <<< 19) ||| 5⟩⟩

/-- The state after the constructor, including its `set_frequency` call. -/
def initState (spiRef f : ℚ) (enable : ℕ) : S5iState :=
  (set_frequency (preInitState spiRef f enable) f).state

/-! ### Arithmetic evaluation helpers -/

theorem floor_eq_ofInt {q : ℚ} (n : ℤ) (h₁ : (n : ℚ) ≤ q) (h₂ : q < n + 1) :
    ⌊q⌋ = n :=
  Int.floor_eq_iff.mpr ⟨h₁, h₂⟩

theorem ceil_eq_ofInt {q : ℚ} (n : ℤ) (h₁ : (n : ℚ) - 1 < q) (h₂ : q ≤ n) :
    ⌈q⌉ = n :=
  Int.ceil_eq_iff.mpr ⟨h₁, h₂⟩

theorem pyTrunc_eq_nat {q : ℚ} (n : ℕ) (h₁ : (n : ℚ) ≤ q) (h₂ : q < n + 1) :
    pyTrunc q = n := by
  have h0 : (0 : ℚ) ≤ q := le_trans (by positivity) h₁
  have hf : ⌊q⌋ = (n : ℤ) := floor_eq_ofInt n (by exact_mod_cast h₁) (by push_cast; exact h₂)
  unfold pyTrunc
  rw [if_pos h0, hf]

theorem pyMod_eq_zero_of_intMul {a b : ℚ} (k : ℤ) (hb : b ≠ 0) (h : a = (k : ℚ) * b) :
    pyMod a b = 0 := by
  subst h
  unfold pyMod
  rw [mul_div_assoc, div_self hb, mul_one, Int.floor_intCast]
  ring

theorem rhe_eq_of_lt_half {q : ℚ} (n : ℤ) (h₁ : (n : ℚ) ≤ q) (h₂ : q < n + 1/2) :
    rhe q = n := by
  have hf : ⌊q⌋ = n := floor_eq_ofInt n h₁ (by linarith)
  unfold rhe
  rw [hf, if_pos (by linarith : q - (n : ℚ) < 1/2)]

theorem rhe_eq_of_gt_half {q : ℚ} (n : ℤ) (h₁ : (n : ℚ) + 1/2 < q) (h₂ : q < n + 1) :
    rhe q = n + 1 := by
  have hf : ⌊q⌋ = n := floor_eq_ofInt n (by linarith) h₂
  unfold rhe
  rw [hf, if_neg (by linarith : ¬ q - (n : ℚ) < 1/2),
    if_pos (by linarith : 1/2 < q - (n : ℚ))]

theorem bandSelect_eq_one {fpfd : ℚ} (h : ¬ fpfd > 10e3) : bandSelect fpfd = 1 := by
  unfold bandSelect
  rw [if_neg h]
  norm_num

theorem bandSelect_eq_ceil {fpfd : ℚ} (c : ℕ) (h : fpfd > 10e3)
    (hc : ⌈fpfd / 10e3⌉ = (c : ℤ)) (hle : ¬ c > 255) : bandSelect fpfd = c := by
  unfold bandSelect
  rw [if_pos h, hc, Int.toNat_natCast, if_neg hle]

theorem bandSelect_eq_clamp {fpfd : ℚ} (c : ℕ) (h : fpfd > 10e3)
    (hc : ⌈fpfd / 10e3⌉ = (c : ℤ)) (hgt : c > 255) : bandSelect fpfd = 255 := by
  unfold bandSelect
  rw [if_pos h, hc, Int.toNat_natCast, if_pos hgt]

/-! ### Branch equations for the embedded methods -/

/-- Any `raise` in `set_frequency` leaves the state untouched and sends
nothing: each error branch returns the original `st` and an empty
transmission list. -/
theorem set_frequency_err_frame (st : S5iState) (f : ℚ) :
    (set_frequency st f).err ≠ none →
    set_frequency st f = ⟨st, (set_frequency st f).err, []⟩ := by
  simp only [set_frequency]
  repeat' split
  all_goals intro h
  all_goals first
    | rfl
    | exact absurd rfl h

/-- The success branch of `set_frequency`, with every computed quantity
made explicit. -/
theorem set_frequency_eq_success (st : S5iState) (f : ℚ)
    (h1 : ¬ (f > 4.4e9 ∨ f < 40e6)) (h2 : ¬ st.stepsize = 0)
    (h3 : ¬ pyMod f st.stepsize ≠ 0)
    (h4 : ¬ (pyTrunc (f / st.stepsize) < (if f ≥ 3.6e9 then (75 : ℤ) else 23) ∨
        pyTrunc (f / st.stepsize) > 65535))
    (h5 : ¬ pyTrunc (st.ref_frequency / st.stepsize) = 0) :
    set_frequency st f =
      ⟨{ st with rf_frequency := f, registers :=
        { st.registers with
          r4 := (computeDiv f <<< 20) |||
            (bandSelect (st.ref_frequency / ((pyTrunc (st.ref_frequency / st.stepsize) : ℤ) : ℚ)) <<< 12) |||
            (st.output_status <<< 5) ||| (3 <<< 3) ||| 4
          r2 := ((pyTrunc (st.ref_frequency / st.stepsize)).toNat <<< 14) |||
            (1 <<< 13) ||| (7 <<< 9) ||| (1 <<< 8) ||| (1 <<< 7) ||| (1 <<< 6) ||| 2
          r1 := ((if f ≥ 3.6e9 then (1 : ℕ) else 0) <<< 27) ||| (1 <<< 15) ||| (2 <<< 3) ||| 1
          r0 := (pyTrunc (f / st.stepsize)).toNat <<< 15 } },
      none,
      write_registers
        { st.registers with
          r4 := (computeDiv f <<< 20) |||
            (bandSelect (st.ref_frequency / ((pyTrunc (st.ref_frequency / st.stepsize) : ℤ) : ℚ)) <<< 12) |||
            (st.output_status <<< 5) ||| (3 <<< 3) ||| 4
          r2 := ((pyTrunc (st.ref_frequency / st.stepsize)).toNat <<< 14) |||
            (1 <<< 13) ||| (7 <<< 9) ||| (1 <<< 8) ||| (1 <<< 7) ||| (1 <<< 6) ||| 2
          r1 := ((if f ≥ 3.6e9 then (1 : ℕ) else 0) <<< 27) ||| (1 <<< 15) ||| (2 <<< 3) ||| 1
          r0 := (pyTrunc (f / st.stepsize)).toNat <<< 15 }⟩ := by
  simp only [set_frequency]
  rw [if_neg h1, if_neg h2, if_neg h3, if_neg h4, if_neg h5]

theorem pyTrunc_natCast (k : ℕ) : pyTrunc (k : ℚ) = k :=
  pyTrunc_eq_nat k (le_refl _) (lt_add_one _)

/-- A sample module state: defaults of `__init__` (stepsize 1 MHz,
reference 10 MHz, backplane reference 10 MHz, output enabled). -/
def stA : S5iState := ⟨100e6, 1e6, 10e6, 10e6, 1, ⟨0, 0, 0, 0, 0, 0⟩⟩

theorem set_frequency_eq_rangeErr (st : S5iState) (f : ℚ)
    (h : f > 4.4e9 ∨ f < 40e6) :
    set_frequency st f = ⟨st, some .rangeErr, []⟩ := by
  unfold set_frequency
  rw [if_pos h]

/-- C1: for `f ∈ [40e6, 4.4e9]` an exact integer multiple `k·s` of the
current stepsize `s`, with `reference_frequency/s` an exact integer `r`,
`1 ≤ r < 1024`, and `k = f/s ∈ [Nmin, 65535]` (Nmin per the prescaler of
`f`), `set_frequency f` succeeds, computes `INT = f/s = k` exactly and
stores `k` at bit offset 15 of register word 0. -/
theorem c1_feedback_int_exact (st : S5iState) (f s : ℚ) (k r : ℕ)
    (hs : st.stepsize = s) (hspos : 0 < s)
    (hf : f = (k : ℚ) * s)
    (hlo : 40e6 ≤ f) (hhi : f ≤ 4.4e9)
    (href : st.ref_frequency = (r : ℚ) * s) (hr1 : 1 ≤ r) (hr2 : r < 1024)
    (hkmin : (if f ≥ 3.6e9 then (75 : ℕ) else 23) ≤ k) (hkmax : k ≤ 65535) :
    (set_frequency st f).err = none ∧
    (set_frequency st f).state.registers.r0 = k <<< 15 ∧
    (set_frequency st f).state.registers.r0 >>> 15 = k := by
  have hsne : st.stepsize ≠ 0 := by rw [hs]; exact ne_of_gt hspos
  have hINT : pyTrunc (f / st.stepsize) = (k : ℤ) := by
    rw [hs, hf, mul_div_assoc, div_self (ne_of_gt hspos), mul_one, pyTrunc_natCast]
  have hR : pyTrunc (st.ref_frequency / st.stepsize) = (r : ℤ) := by
    rw [hs, href, mul_div_assoc, div_self (ne_of_gt hspos), mul_one, pyTrunc_natCast]
  have h1 : ¬ (f > 4.4e9 ∨ f < 40e6) := by push_neg; exact ⟨hhi, hlo⟩
  have h3 : ¬ pyMod f st.stepsize ≠ 0 := by
    rw [hs]
    intro hcon
    exact hcon (pyMod_eq_zero_of_intMul (k : ℤ) (by rwa [hs] at hsne) (by push_cast [hf]; ring))
  have h4 : ¬ (pyTrunc (f / st.stepsize) < (if f ≥ 3.6e9 then (75 : ℤ) else 23) ∨
      pyTrunc (f / st.stepsize) > 65535) := by
    rw [hINT]
    push_neg
    constructor
    · by_cases hp : f ≥ 3.6e9
      · rw [if_pos hp]
        rw [if_pos hp] at hkmin
        exact_mod_cast hkmin
      · rw [if_neg hp]
        rw [if_neg hp] at hkmin
        exact_mod_cast hkmin
    · exact_mod_cast hkmax
  have h5 : ¬ pyTrunc (st.ref_frequency / st.stepsize) = 0 := by
    rw [hR]
    exact_mod_cast Nat.one_le_iff_ne_zero.mp hr1
  rw [set_frequency_eq_success st f h1 hsne h3 h4 h5]
  refine ⟨rfl, ?_, ?_⟩
  · simp [hINT]
  · simp [hINT, Nat.shiftLeft_eq, Nat.shiftRight_eq_div_pow,
      Nat.mul_div_cancel _ (Nat.two_pow_pos 15)]

/-- C1 witness: the defaults (`stepsize = 1e6`, `reference = 10e6`) with
`f = 1e8 = 100 · 1e6`. -/
theorem c1_feedback_int_exact_witness :
    (set_frequency stA 1e8).err = none ∧
    (set_frequency stA 1e8).state.registers.r0 = 100 <<< 15 ∧
    (set_frequency stA 1e8).state.registers.r0 >>> 15 = 100 :=
  c1_feedback_int_exact stA 1e8 1e6 100 10 rfl (by norm_num) (by norm_num)
    (by norm_num) (by norm_num) (by norm_num [stA]) (by norm_num) (by norm_num)
    (by norm_num) (by norm_num)

/-- C2: whenever `set_frequency` fails (any of its validation errors), the
state — registers, `rf_frequency` and `stepsize` — is exactly as before the
call and nothing is transmitted to the transport. -/
theorem c2_failure_leaves_state (st : S5iState) (f : ℚ)
    (h : (set_frequency st f).err ≠ none) :
    (set_frequency st f).state = st ∧
    (set_frequency st f).state.registers = st.registers ∧
    (set_frequency st f).state.rf_frequency = st.rf_frequency ∧
    (set_frequency st f).state.stepsize = st.stepsize ∧
    (set_frequency st f).sent = [] := by
  have e := set_frequency_err_frame st f h
  rw [e]
  exact ⟨rfl, rfl, rfl, rfl, rfl⟩

/-- C2 witness: an out-of-range request (`f = 1e3`) on the default state. -/
theorem c2_failure_leaves_state_witness :
    (set_frequency stA 1e3).state = stA ∧
    (set_frequency stA 1e3).state.registers = stA.registers ∧
    (set_frequency stA 1e3).state.rf_frequency = stA.rf_frequency ∧
    (set_frequency stA 1e3).state.stepsize = stA.stepsize ∧
    (set_frequency stA 1e3).sent = [] :=
  c2_failure_leaves_state stA 1e3
    (by rw [set_frequency_eq_rangeErr stA 1e3 (Or.inr (by norm_num))]; simp)

/-- The divider loop returns the first index satisfying the VCO condition,
provided one exists within the remaining fuel. -/
theorem divSearch_spec (f : ℚ) :
    ∀ fuel n, (∃ k, n ≤ k ∧ k < n + fuel ∧ vcoOK f k) →
      vcoOK f (divSearch f fuel n) ∧ n ≤ divSearch f fuel n ∧
      divSearch f fuel n < n + fuel ∧
      ∀ m, n ≤ m → m < divSearch f fuel n → ¬ vcoOK f m := by
  intro fuel
  induction fuel with
  | zero =>
    rintro n ⟨k, hk1, hk2, -⟩
    omega
  | succ fuel ih =>
    rintro n ⟨k, hk1, hk2, hk3⟩
    simp only [divSearch]
    by_cases h : vcoOK f n
    · rw [if_pos h]
      exact ⟨h, le_refl n, by omega, fun m hm1 hm2 => absurd hm1 (by omega)⟩
    · rw [if_neg h]
      have hkn : k ≠ n := fun e => h (e ▸ hk3)
      obtain ⟨ih1, ih2, ih3, ih4⟩ := ih (n + 1) ⟨k, by omega, by omega, hk3⟩
      refine ⟨ih1, by omega, by omega, fun m hm1 hm2 => ?_⟩
      by_cases hmn : m = n
      · exact hmn ▸ h
      · exact ih4 m (by omega) hm2

/-- For every frequency in the chip span a valid VCO divider exponent
`k ≤ 6` exists. -/
theorem vco_exists (f : ℚ) (hlo : 40e6 ≤ f) (hhi : f ≤ 4.4e9) :
    ∃ k, k ≤ 6 ∧ vcoOK f k := by
  rcases le_or_lt 2.2e9 f with h0 | h0
  · refine ⟨0, by norm_num, ?_, ?_⟩ <;> · norm_num; linarith
  rcases le_or_lt 1.1e9 f with h1 | h1
  · refine ⟨1, by norm_num, ?_, ?_⟩ <;> · norm_num; linarith
  rcases le_or_lt 5.5e8 f with h2 | h2
  · refine ⟨2, by norm_num, ?_, ?_⟩ <;> · norm_num; linarith
  rcases le_or_lt 2.75e8 f with h3 | h3
  · refine ⟨3, by norm_num, ?_, ?_⟩ <;> · norm_num; linarith
  rcases le_or_lt 1.375e8 f with h4 | h4
  · refine ⟨4, by norm_num, ?_, ?_⟩ <;> · norm_num; linarith
  rcases le_or_lt 6.875e7 f with h5 | h5
  · refine ⟨5, by norm_num, ?_, ?_⟩ <;> · norm_num; linarith
  · refine ⟨6, by norm_num, ?_, ?_⟩ <;> · norm_num; linarith

/-- C3: for every in-range target frequency, a divider exponent in `[0,6]`
satisfying the VCO constraint exists, and the `div` computed by the loop
shared by `set_frequency` and `set_frequency_optimally` is the smallest
such exponent; consequently `2^div * f ∈ [2.2e9, 4.4e9]`. -/
theorem c3_divider_smallest (f : ℚ) (hlo : 40e6 ≤ f) (hhi : f ≤ 4.4e9) :
    (∃ k, k ≤ 6 ∧ vcoOK f k) ∧
    computeDiv f ≤ 6 ∧
    (2.2e9 ≤ 2 ^ computeDiv f * f ∧ 2 ^ computeDiv f * f ≤ 4.4e9) ∧
    ∀ m, m < computeDiv f → ¬ vcoOK f m := by
  obtain ⟨k, hk6, hkok⟩ := vco_exists f hlo hhi
  obtain ⟨d1, -, d3, d4⟩ :=
    divSearch_spec f 7 0 ⟨k, Nat.zero_le k, by omega, hkok⟩
  exact ⟨⟨k, hk6, hkok⟩, by unfold computeDiv; omega, d1, fun m hm => d4 m (Nat.zero_le m) hm⟩

/-- C3 witness: `f = 1e9` (in range; the smallest valid exponent is 2). -/
theorem c3_divider_smallest_witness :
    (∃ k, k ≤ 6 ∧ vcoOK (1e9 : ℚ) k) ∧
    computeDiv (1e9 : ℚ) ≤ 6 ∧
    ((2.2e9 : ℚ) ≤ 2 ^ computeDiv (1e9 : ℚ) * 1e9 ∧
      2 ^ computeDiv (1e9 : ℚ) * 1e9 ≤ (4.4e9 : ℚ)) ∧
    ∀ m, m < computeDiv (1e9 : ℚ) → ¬ vcoOK (1e9 : ℚ) m :=
  c3_divider_smallest 1e9 (by norm_num) (by norm_num)

/-- Inversion: a successful `set_frequency` run passed every validation
check. -/
theorem set_frequency_of_err_none (st : S5iState) (f : ℚ) :
    (set_frequency st f).err = none →
    ¬ (f > 4.4e9 ∨ f < 40e6) ∧ ¬ st.stepsize = 0 ∧ ¬ pyMod f st.stepsize ≠ 0 ∧
    ¬ (pyTrunc (f / st.stepsize) < (if f ≥ 3.6e9 then (75 : ℤ) else 23) ∨
        pyTrunc (f / st.stepsize) > 65535) ∧
    ¬ pyTrunc (st.ref_frequency / st.stepsize) = 0 := by
  simp only [set_frequency]
  repeat' split
  all_goals intro h
  all_goals simp_all

/-- A state with stepsize 10 MHz (reachable through `set_stepsize(10e6)`
from the defaults). -/
def stB : S5iState := ⟨100e6, 10e6, 10e6, 10e6, 1, ⟨0, 0, 0, 0, 0, 0⟩⟩

/-- C4: on every successful `set_frequency` run the encoded prescaler flag
(register word 1, bit 27) is High (1) exactly when `f ≥ 3.6e9` and Low (0)
otherwise, and the feedback integer is at least the matching
`Nmin` (75 for High, 23 for Low); moreover `set_frequency(3.7e9)` fails for
every stepsize making `int(3.7e9/stepsize) < 75`. -/
theorem c4_prescaler_threshold (st : S5iState) (f : ℚ)
    (h : (set_frequency st f).err = none) :
    (set_frequency st f).state.registers.r1 >>> 27 = (if f ≥ 3.6e9 then 1 else 0) ∧
    (if f ≥ 3.6e9 then (75 : ℤ) else 23) ≤ pyTrunc (f / st.stepsize) ∧
    (∀ st2 : S5iState, 0 < st2.stepsize → pyTrunc (3.7e9 / st2.stepsize) < 75 →
      (set_frequency st2 3.7e9).err ≠ none) := by
  obtain ⟨h1, h2, h3, h4, h5⟩ := set_frequency_of_err_none st f h
  refine ⟨?_, ?_, ?_⟩
  · rw [set_frequency_eq_success st f h1 h2 h3 h4 h5]
    by_cases hp : f ≥ 3.6e9
    · rw [if_pos hp]
      show (1 <<< 27 ||| 1 <<< 15 ||| 2 <<< 3 ||| 1 : ℕ) >>> 27 = 1
      decide
    · rw [if_neg hp]
      show (0 <<< 27 ||| 1 <<< 15 ||| 2 <<< 3 ||| 1 : ℕ) >>> 27 = 0
      decide
  · push_neg at h4
    exact h4.1
  · intro st2 hpos hlt hcon
    obtain ⟨-, -, -, g4, -⟩ := set_frequency_of_err_none st2 3.7e9 hcon
    rw [if_pos (by norm_num : (3.7e9 : ℚ) ≥ 3.6e9)] at g4
    push_neg at g4
    exact absurd g4.1 (not_le.mpr hlt)

/-- Evaluation of the `set_frequency(3.7e9)` run from `stB`
(stepsize 10 MHz): all validations pass. -/
theorem sf_stB_37_err : (set_frequency stB 3.7e9).err = none := by
  rw [set_frequency_eq_success stB 3.7e9 (by norm_num)
    (by norm_num [stB])
    (by
      simp only [stB]
      intro hcon
      exact hcon (pyMod_eq_zero_of_intMul 370 (by norm_num) (by norm_num)))
    (by
      simp only [stB]
      rw [pyTrunc_eq_nat 370 (by norm_num) (by norm_num)]
      norm_num)
    (by
      simp only [stB]
      rw [pyTrunc_eq_nat 1 (by norm_num) (by norm_num)]
      norm_num)]

/-- C4 witness: `f = 3.7e9` from `stB` succeeds and selects the High
prescaler. -/
theorem c4_prescaler_threshold_witness :
    (set_frequency stB 3.7e9).state.registers.r1 >>> 27 =
      (if (3.7e9 : ℚ) ≥ 3.6e9 then 1 else 0) ∧
    (if (3.7e9 : ℚ) ≥ 3.6e9 then (75 : ℤ) else 23) ≤ pyTrunc (3.7e9 / stB.stepsize) ∧
    (∀ st2 : S5iState, 0 < st2.stepsize → pyTrunc (3.7e9 / st2.stepsize) < 75 →
      (set_frequency st2 3.7e9).err ≠ none) :=
  c4_prescaler_threshold stB 3.7e9 sf_stB_37_err

/-- Evaluation of `set_frequency(1e9)` from the default state `stA`
(stepsize 1e6, reference 10e6): the run succeeds with `INT = 1000`. -/
theorem sf_stA_1e9_facts :
    (set_frequency stA 1e9).err = none ∧
    (set_frequency stA 1e9).state.registers.r0 = 1000 <<< 15 := by
  rw [set_frequency_eq_success stA 1e9 (by norm_num)
    (by norm_num [stA])
    (by
      simp only [stA]
      intro hcon
      exact hcon (pyMod_eq_zero_of_intMul 1000 (by norm_num) (by norm_num)))
    (by
      simp only [stA]
      rw [pyTrunc_eq_nat 1000 (by norm_num) (by norm_num), if_neg (by norm_num)]
      norm_num)
    (by
      simp only [stA]
      rw [pyTrunc_eq_nat 10 (by norm_num) (by norm_num)]
      norm_num)]
  refine ⟨rfl, ?_⟩
  simp only [stA]
  rw [pyTrunc_eq_nat 1000 (by norm_num) (by norm_num)]
  simp

/-- C9 counterexample: `set_frequency(1e9)` with `stepsize = 1e6`,
`reference = 10e6` succeeds, but the feedback field of register word 0 is
not 100. -/
theorem c9_counterexample :
    (set_frequency stA 1e9).err = none ∧
    (set_frequency stA 1e9).state.registers.r0 >>> 15 ≠ 100 := by
  obtain ⟨he, hr⟩ := sf_stA_1e9_facts
  refine ⟨he, ?_⟩
  rw [hr]
  decide

/-- C9 amended: the encoded feedback field equals `1e9 / 1e6 = 1000`. -/
theorem c9_feedback_field_1000 :
    (set_frequency stA 1e9).err = none ∧
    (set_frequency stA 1e9).state.registers.r0 = 1000 <<< 15 ∧
    (set_frequency stA 1e9).state.registers.r0 >>> 15 = 1000 := by
  obtain ⟨he, hr⟩ := sf_stA_1e9_facts
  refine ⟨he, hr, ?_⟩
  rw [hr]
  decide

theorem computeDiv_1e9 : computeDiv (1e9 : ℚ) = 2 := by
  simp only [computeDiv, divSearch]
  norm_num [vcoOK]

theorem bandSelect_10e6 : bandSelect (10e6 : ℚ) = 255 :=
  bandSelect_eq_clamp 1000 (by norm_num)
    (ceil_eq_ofInt 1000 (by norm_num) (by norm_num)) (by norm_num)

/-- Evaluation of `set_frequency(1e9)` from `stB` (stepsize 10 MHz):
the run succeeds with `R = 1`, `fpfd = 10e6` and a clamped
`band_sel = 255`. -/
theorem sf_stB_1e9_facts :
    (set_frequency stB 1e9).err = none ∧
    (set_frequency stB 1e9).state.registers.r4 =
      (2 <<< 20) ||| (255 <<< 12) ||| (1 <<< 5) ||| (3 <<< 3) ||| 4 := by
  rw [set_frequency_eq_success stB 1e9 (by norm_num)
    (by norm_num [stB])
    (by
      simp only [stB]
      intro hcon
      exact hcon (pyMod_eq_zero_of_intMul 100 (by norm_num) (by norm_num)))
    (by
      simp only [stB]
      rw [pyTrunc_eq_nat 100 (by norm_num) (by norm_num), if_neg (by norm_num)]
      norm_num)
    (by
      simp only [stB]
      rw [pyTrunc_eq_nat 1 (by norm_num) (by norm_num)]
      norm_num)]
  refine ⟨rfl, ?_⟩
  simp only [stB]
  rw [computeDiv_1e9, pyTrunc_eq_nat 1 (by norm_num) (by norm_num)]
  norm_num
  rw [show (10000000 : ℚ) = 10e6 by norm_num, bandSelect_10e6]

/-- C6 counterexample: the valid plan of `set_frequency(1e9)` from `stB`
(reference 10 MHz, `R = 1`) clamps `band_select` to 255, and then
`reference / R / band_select = 10e6/255 > 10e3 = max_pfd`. -/
theorem c6_counterexample :
    (set_frequency stB 1e9).err = none ∧
    (set_frequency stB 1e9).state.registers.r4 >>> 12 &&& 255 = 255 ∧
    bandSelect ((10e6 : ℚ) / 1) = 255 ∧
    ¬ ((10e6 : ℚ) / 1 / 255 ≤ 10e3) := by
  obtain ⟨he, hr⟩ := sf_stB_1e9_facts
  refine ⟨he, ?_, ?_, by norm_num⟩
  · rw [hr]
    decide
  · rw [(by norm_num : (10e6 : ℚ) / 1 = 10e6)]
    exact bandSelect_10e6

/-- C6 amended: `band_select` is 1 when `pfd ≤ 10e3 = max_pfd` and
`ceil(pfd/max_pfd)` clamped to `[1,255]` otherwise, hence always in
`[1,255]`; and `pfd / band_select ≤ max_pfd` holds whenever the unclamped
value `ceil(pfd/max_pfd)` is at most 255 (clamping can break it). -/
theorem c6_band_select (fpfd : ℚ) (hpos : 0 < fpfd) :
    (¬ fpfd > 10e3 → bandSelect fpfd = 1) ∧
    (fpfd > 10e3 → bandSelect fpfd = min 255 (⌈fpfd / 10e3⌉.toNat)) ∧
    1 ≤ bandSelect fpfd ∧ bandSelect fpfd ≤ 255 ∧
    (⌈fpfd / 10e3⌉ ≤ 255 → fpfd / (bandSelect fpfd : ℚ) ≤ 10e3) := by
  by_cases h : fpfd > 10e3
  · have hc1 : (1 : ℚ) < fpfd / 10e3 := by
      rw [lt_div_iff (by norm_num : (0:ℚ) < 10e3)]
      linarith
    have hceil2 : 2 ≤ ⌈fpfd / 10e3⌉ := by
      have := Int.lt_ceil.mpr (by exact_mod_cast hc1 : ((1:ℤ) : ℚ) < fpfd / 10e3)
      omega
    have hself : fpfd / 10e3 ≤ (⌈fpfd / 10e3⌉ : ℚ) := Int.le_ceil _
    have hbs : bandSelect fpfd = min 255 (⌈fpfd / 10e3⌉.toNat) := by
      unfold bandSelect
      rw [if_pos h]
      rcases le_or_lt (⌈fpfd / 10e3⌉.toNat) 255 with hle | hgt
      · rw [if_neg (by omega), min_eq_right hle]
      · rw [if_pos (by omega), min_eq_left (by omega)]
    refine ⟨fun hcon => absurd h hcon, fun _ => hbs, ?_, ?_, ?_⟩
    · rw [hbs]; omega
    · rw [hbs]; omega
    · intro hle255
      have htn : (⌈fpfd / 10e3⌉.toNat : ℤ) = ⌈fpfd / 10e3⌉ := Int.toNat_of_nonneg (by omega)
      have hbseq : bandSelect fpfd = ⌈fpfd / 10e3⌉.toNat := by
        rw [hbs, min_eq_right (by omega)]
      rw [hbseq]
      have hpos' : (0 : ℚ) < (⌈fpfd / 10e3⌉.toNat : ℚ) := by
        exact_mod_cast (by omega : (0 : ℤ) < ⌈fpfd / 10e3⌉.toNat) |>.trans_le (le_refl _)
      rw [div_le_iff hpos']
      have : fpfd / 10e3 ≤ ((⌈fpfd / 10e3⌉.toNat : ℤ) : ℚ) := by
        rw [htn]; exact hself
      rw [div_le_iff (by norm_num : (0:ℚ) < 10e3)] at this
      push_cast at this ⊢
      linarith
  · have hbs : bandSelect fpfd = 1 := bandSelect_eq_one h
    push_neg at h
    refine ⟨fun _ => hbs, fun hcon => absurd hcon (not_lt.mpr h), ?_, ?_, ?_⟩
    · rw [hbs]
    · rw [hbs]; norm_num
    · intro _
      rw [hbs]
      push_cast
      rw [div_one]
      exact h

/-- C6 witness (amended theorem): `fpfd = 5e3 ≤ max_pfd`. -/
theorem c6_band_select_witness :
    (¬ (5e3 : ℚ) > 10e3 → bandSelect 5e3 = 1) ∧
    ((5e3 : ℚ) > 10e3 → bandSelect 5e3 = min 255 (⌈(5e3 : ℚ) / 10e3⌉.toNat)) ∧
    1 ≤ bandSelect (5e3 : ℚ) ∧ bandSelect (5e3 : ℚ) ≤ 255 ∧
    (⌈(5e3 : ℚ) / 10e3⌉ ≤ 255 → (5e3 : ℚ) / (bandSelect (5e3 : ℚ) : ℚ) ≤ 10e3) :=
  c6_band_select 5e3 (by norm_num)

/-- C10: a successful `set_frequency` writes the stored `output_status`
into bit 5 of register word 4 and leaves `output_status` itself unchanged;
`enable_output_soft` stores the normalized enable flag and writes the same
bit — so a frequency change reproduces exactly the output state most
recently established. -/
theorem c10_output_bit_stable (st : S5iState) (f : ℚ)
    (hout : st.output_status ≤ 1)
    (h : (set_frequency st f).err = none) :
    (set_frequency st f).state.registers.r4.testBit 5 = decide (st.output_status = 1) ∧
    (set_frequency st f).state.output_status = st.output_status ∧
    (∀ st2 : S5iState, ∀ e : ℕ,
      (enable_output_soft st2 e).1.output_status = (if e ≠ 0 then 1 else 0) ∧
      (enable_output_soft st2 e).1.registers.r4.testBit 5 = decide (e ≠ 0)) := by
  obtain ⟨h1, h2, h3, h4, h5⟩ := set_frequency_of_err_none st f h
  rw [set_frequency_eq_success st f h1 h2 h3 h4 h5]
  refine ⟨?_, rfl, ?_⟩
  · interval_cases hx : st.output_status
    · simp [Nat.testBit_or, Nat.testBit_shiftLeft]
      decide
    · simp [Nat.testBit_or, Nat.testBit_shiftLeft]
      decide
  · intro st2 e
    by_cases he : e = 0
    · subst he
      refine ⟨by simp [enable_output_soft], ?_⟩
      simp [enable_output_soft, Nat.testBit_or, Nat.testBit_and, Nat.testBit_shiftLeft]
      exact fun _ => by decide
    · refine ⟨by simp [enable_output_soft, he], ?_⟩
      simp [enable_output_soft, he, Nat.testBit_or, Nat.testBit_and, Nat.testBit_shiftLeft]
      exact Or.inr (by decide)

/-- C10 witness: the successful `set_frequency(1e9)` run from `stA`
(output enabled). -/
theorem c10_output_bit_stable_witness :
    (set_frequency stA 1e9).state.registers.r4.testBit 5 = decide (stA.output_status = 1) ∧
    (set_frequency stA 1e9).state.output_status = stA.output_status ∧
    (∀ st2 : S5iState, ∀ e : ℕ,
      (enable_output_soft st2 e).1.output_status = (if e ≠ 0 then 1 else 0) ∧
      (enable_output_soft st2 e).1.registers.r4.testBit 5 = decide (e ≠ 0)) :=
  c10_output_bit_stable stA 1e9 (by norm_num [stA]) sf_stA_1e9_facts.1

/-- A shifted field whose value fits in `bound` bits has no set bit outside
`[k, k+bound)`. -/
theorem testBit_shiftLeft_outside {a : ℕ} (k bound i : ℕ) (ha : a < 2 ^ bound)
    (h : i < k ∨ k + bound ≤ i) : (a <<< k).testBit i = false := by
  rw [Nat.testBit_shiftLeft]
  rcases h with h | h
  · simp [Nat.not_le.mpr h]
  · have hfa : a.testBit (i - k) = false :=
      Nat.testBit_eq_false_of_lt (lt_of_lt_of_le ha (Nat.pow_le_pow_right (by norm_num) (by omega)))
    simp [hfa]

/-- Bits of the encoded REG0 outside the feedback field `[15,30]` are
clear. -/
theorem staticBits_r0 (K i : ℕ) (hK : K < 65536) (h : ¬ (15 ≤ i ∧ i ≤ 30)) :
    (K <<< 15).testBit i = false :=
  testBit_shiftLeft_outside 15 16 i (by simpa using hK) (by omega)

/-- Bits of the encoded REG1 outside the prescaler flag (bit 27) agree with
the fixed pattern. -/
theorem staticBits_r1 (p i : ℕ) (hp : p < 2) (h : i ≠ 27) :
    ((p <<< 27) ||| (1 <<< 15) ||| (2 <<< 3) ||| 1).testBit i =
      ((1 <<< 15) ||| (2 <<< 3) ||| (1 : ℕ)).testBit i := by
  have h1 : (p <<< 27).testBit i = false :=
    testBit_shiftLeft_outside 27 1 i (by simpa using hp) (by omega)
  simp only [Nat.testBit_or, h1, Bool.false_or]

/-- Bits of the encoded REG2 outside the R field `[14,23]` agree with the
fixed pattern. -/
theorem staticBits_r2 (R i : ℕ) (hR : R < 1024) (h : ¬ (14 ≤ i ∧ i ≤ 23)) :
    ((R <<< 14) ||| (1 <<< 13) ||| (7 <<< 9) ||| (1 <<< 8) ||| (1 <<< 7) ||| (1 <<< 6) ||| 2).testBit i =
      ((1 <<< 13) ||| (7 <<< 9) ||| (1 <<< 8) ||| (1 <<< 7) ||| (1 <<< 6) ||| (2 : ℕ)).testBit i := by
  have h1 : (R <<< 14).testBit i = false :=
    testBit_shiftLeft_outside 14 10 i (by simpa using hR) (by omega)
  simp only [Nat.testBit_or, h1, Bool.false_or]

/-- Bits of the encoded REG4 outside the divider `[20,22]`, band-select
`[12,19]` and output-enable (bit 5) fields agree with the fixed pattern. -/
theorem staticBits_r4 (d b o i : ℕ) (hd : d < 8) (hb : b < 256) (ho : o < 2)
    (h : ¬ (i = 5 ∨ (12 ≤ i ∧ i ≤ 19) ∨ (20 ≤ i ∧ i ≤ 22))) :
    ((d <<< 20) ||| (b <<< 12) ||| (o <<< 5) ||| (3 <<< 3) ||| 4).testBit i =
      ((3 <<< 3) ||| (4 : ℕ)).testBit i := by
  push_neg at h
  have h1 : (d <<< 20).testBit i = false :=
    testBit_shiftLeft_outside 20 3 i (by simpa using hd) (by omega)
  have h2 : (b <<< 12).testBit i = false :=
    testBit_shiftLeft_outside 12 8 i (by simpa using hb) (by omega)
  have h3 : (o <<< 5).testBit i = false :=
    testBit_shiftLeft_outside 5 1 i (by simpa using ho) (by omega)
  simp only [Nat.testBit_or, h1, h2, h3, Bool.false_or]

/-- The computed VCO divider exponent never exceeds 6 (the loop covers
`range(0,7)` and `div` defaults to 0). -/
theorem divSearch_le (f : ℚ) : ∀ fuel n, divSearch f fuel n = 0 ∨ divSearch f fuel n < n + fuel := by
  intro fuel
  induction fuel with
  | zero => intro n; exact Or.inl rfl
  | succ fuel ih =>
    intro n
    simp only [divSearch]
    by_cases h : vcoOK f n
    · rw [if_pos h]; right; omega
    · rw [if_neg h]
      rcases ih (n + 1) with h0 | hlt
      · exact Or.inl h0
      · right; omega

theorem computeDiv_le_6 (f : ℚ) : computeDiv f ≤ 6 := by
  unfold computeDiv
  rcases divSearch_le f 7 0 with h | h <;> omega

/-- The band-select value is always clamped to at most 255. -/
theorem bandSelect_le_255 (x : ℚ) : bandSelect x ≤ 255 := by
  simp only [bandSelect]
  repeat' split
  all_goals omega

/-- Repeated frequency changes: fold `set_frequency` over a list of
requests, keeping each call's resulting state. -/
def applyFreqs (st : S5iState) (fs : List ℚ) : S5iState :=
  fs.foldl (fun s f => (set_frequency s f).state) st

/-- `set_frequency` never touches the static configuration words REG3 and
REG5 (written once by the constructor). -/
theorem sf_preserves_r3_r5 (st : S5iState) (f : ℚ) :
    (set_frequency st f).state.registers.r3 = st.registers.r3 ∧
    (set_frequency st f).state.registers.r5 = st.registers.r5 := by
  simp only [set_frequency]
  repeat' split
  all_goals exact ⟨rfl, rfl⟩

theorem applyFreqs_r3_r5 (fs : List ℚ) : ∀ st : S5iState,
    (applyFreqs st fs).registers.r3 = st.registers.r3 ∧
    (applyFreqs st fs).registers.r5 = st.registers.r5 := by
  induction fs with
  | nil => intro st; exact ⟨rfl, rfl⟩
  | cons g gs ih =>
    intro st
    obtain ⟨i3, i5⟩ := ih (set_frequency st g).state
    obtain ⟨p3, p5⟩ := sf_preserves_r3_r5 st g
    exact ⟨by simpa [applyFreqs, p3] using i3, by simpa [applyFreqs, p5] using i5⟩

/-- C8: a successful `set_frequency` never touches REG3/REG5 (so the ABP,
charge-cancel and lock-detect configuration written once by the
constructor survives any number of successive frequency changes, last
conjunct), and in the words it does rebuild (REG0, REG1, REG2, REG4) every
bit outside the dynamic fields — feedback [15,30], prescaler {27},
R [14,23], divider [20,22]/band-select [12,19]/output bit 5 — equals a
fixed pattern independent of the request. -/
theorem c8_static_bits_preserved (st : S5iState) (f : ℚ)
    (hout : st.output_status ≤ 1)
    (hR : pyTrunc (st.ref_frequency / st.stepsize) < 1024)
    (h : (set_frequency st f).err = none) :
    ((set_frequency st f).state.registers.r3 = st.registers.r3 ∧
      (set_frequency st f).state.registers.r5 = st.registers.r5) ∧
    (∀ i, ¬ (15 ≤ i ∧ i ≤ 30) →
      (set_frequency st f).state.registers.r0.testBit i = false) ∧
    (∀ i, i ≠ 27 →
      (set_frequency st f).state.registers.r1.testBit i =
        ((1 <<< 15) ||| (2 <<< 3) ||| (1 : ℕ)).testBit i) ∧
    (∀ i, ¬ (14 ≤ i ∧ i ≤ 23) →
      (set_frequency st f).state.registers.r2.testBit i =
        ((1 <<< 13) ||| (7 <<< 9) ||| (1 <<< 8) ||| (1 <<< 7) ||| (1 <<< 6) ||| (2 : ℕ)).testBit i) ∧
    (∀ i, ¬ (i = 5 ∨ (12 ≤ i ∧ i ≤ 19) ∨ (20 ≤ i ∧ i ≤ 22)) →
      (set_frequency st f).state.registers.r4.testBit i =
        ((3 <<< 3) ||| (4 : ℕ)).testBit i) ∧
    (∀ gs : List ℚ, ∀ spiRef g : ℚ, ∀ en : ℕ,
      (applyFreqs (initState spiRef g en) gs).registers.r3 =
        (1 <<< 22) ||| (1 <<< 21) ||| 3 ∧
      (applyFreqs (initState spiRef g en) gs).registers.r5 =
        (1 <<< 22) ||| (3 <<< 19) ||| 5) := by
  obtain ⟨h1, h2, h3, h4, h5⟩ := set_frequency_of_err_none st f h
  have hINT : (pyTrunc (f / st.stepsize)).toNat < 65536 := by
    push_neg at h4
    omega
  rw [set_frequency_eq_success st f h1 h2 h3 h4 h5]
  refine ⟨⟨rfl, rfl⟩, ?_, ?_, ?_, ?_, ?_⟩
  · intro i hi
    exact staticBits_r0 _ i hINT hi
  · intro i hi
    exact staticBits_r1 _ i (by split <;> norm_num) hi
  · intro i hi
    exact staticBits_r2 _ i (by omega) hi
  · intro i hi
    refine staticBits_r4 _ _ _ i ?_ ?_ (by omega) hi
    · have := computeDiv_le_6 f
      omega
    · have := bandSelect_le_255
        (st.ref_frequency / ((pyTrunc (st.ref_frequency / st.stepsize) : ℤ) : ℚ))
      omega
  · intro gs spiRef g en
    obtain ⟨a3, a5⟩ := applyFreqs_r3_r5 gs (initState spiRef g en)
    obtain ⟨p3, p5⟩ := sf_preserves_r3_r5 (preInitState spiRef g en) g
    constructor
    · rw [a3]; exact p3
    · rw [a5]; exact p5

/-- C8 witness: the successful run `set_frequency(1e9)` from `stA`. -/
theorem c8_static_bits_preserved_witness :
    ((set_frequency stA 1e9).state.registers.r3 = stA.registers.r3 ∧
      (set_frequency stA 1e9).state.registers.r5 = stA.registers.r5) ∧
    (∀ i, ¬ (15 ≤ i ∧ i ≤ 30) →
      (set_frequency stA 1e9).state.registers.r0.testBit i = false) ∧
    (∀ i, i ≠ 27 →
      (set_frequency stA 1e9).state.registers.r1.testBit i =
        ((1 <<< 15) ||| (2 <<< 3) ||| (1 : ℕ)).testBit i) ∧
    (∀ i, ¬ (14 ≤ i ∧ i ≤ 23) →
      (set_frequency stA 1e9).state.registers.r2.testBit i =
        ((1 <<< 13) ||| (7 <<< 9) ||| (1 <<< 8) ||| (1 <<< 7) ||| (1 <<< 6) ||| (2 : ℕ)).testBit i) ∧
    (∀ i, ¬ (i = 5 ∨ (12 ≤ i ∧ i ≤ 19) ∨ (20 ≤ i ∧ i ≤ 22)) →
      (set_frequency stA 1e9).state.registers.r4.testBit i =
        ((3 <<< 3) ||| (4 : ℕ)).testBit i) ∧
    (∀ gs : List ℚ, ∀ spiRef g : ℚ, ∀ en : ℕ,
      (applyFreqs (initState spiRef g en) gs).registers.r3 =
        (1 <<< 22) ||| (1 <<< 21) ||| 3 ∧
      (applyFreqs (initState spiRef g en) gs).registers.r5 =
        (1 <<< 22) ||| (3 <<< 19) ||| 5) :=
  c8_static_bits_preserved stA 1e9 (by norm_num [stA])
    (by
      simp only [stA]
      rw [pyTrunc_eq_nat 10 (by norm_num) (by norm_num)]
      norm_num)
    sf_stA_1e9_facts.1

/-! ### Properties of round-half-to-even and of the argmin scan -/

/-- `np.around` rounds to a nearest integer: no integer is strictly
closer. -/
theorem rhe_nearest (q : ℚ) (n : ℤ) : |q - (rhe q : ℚ)| ≤ |q - (n : ℚ)| := by
  have hfl : ((⌊q⌋ : ℤ) : ℚ) ≤ q := Int.floor_le q
  have hfu : q < (⌊q⌋ : ℚ) + 1 := Int.lt_floor_add_one q
  have hb := le_abs_self (q - (n : ℚ))
  have hb' := neg_abs_le (q - (n : ℚ))
  have hn : n ≤ ⌊q⌋ ∨ ⌊q⌋ + 1 ≤ n := by omega
  have hn' : (n : ℚ) ≤ (⌊q⌋ : ℚ) ∨ ((⌊q⌋ : ℚ) + 1) ≤ (n : ℚ) := by
    rcases hn with hc | hc
    · exact Or.inl (by exact_mod_cast hc)
    · exact Or.inr (by exact_mod_cast hc)
  unfold rhe
  split_ifs with hlt hgt heven
  · rw [abs_of_nonneg (by linarith)]
    rcases hn' with hc | hc <;> linarith
  · rw [abs_of_nonpos (by push_cast; linarith)]
    push_cast
    rcases hn' with hc | hc <;> linarith
  · rw [abs_of_nonneg (by linarith)]
    rcases hn' with hc | hc <;> linarith
  · rw [abs_of_nonpos (by push_cast; linarith)]
    push_cast
    rcases hn' with hc | hc <;> linarith

/-- `np.around q = 0` for `q ∈ [0, 1/2]` (half rounds to the even 0). -/
theorem rhe_zero_of_le_half (q : ℚ) (h0 : 0 ≤ q) (hh : q ≤ 1/2) : rhe q = 0 := by
  have hfl : ⌊q⌋ = 0 := floor_eq_ofInt 0 (by exact_mod_cast h0) (by push_cast; linarith)
  unfold rhe
  rw [hfl]
  split_ifs with hlt hgt heven
  · rfl
  · push_cast at hgt
    linarith
  · rfl
  · exact absurd rfl heven

/-- `np.around q ≥ 1` for `q > 1/2`. -/
theorem rhe_ge_one_of_gt_half (q : ℚ) (h : 1/2 < q) : 1 ≤ rhe q := by
  have h0 : (0 : ℚ) ≤ q := by linarith
  have hfl0 : 0 ≤ ⌊q⌋ := Int.floor_nonneg.mpr h0
  unfold rhe
  split_ifs with hlt hgt heven
  · -- fractional part < 1/2 forces ⌊q⌋ ≥ 1
    by_contra hcon
    have hfl : ⌊q⌋ = 0 := by omega
    rw [hfl] at hlt
    push_cast at hlt
    linarith
  · omega
  · -- fractional part = 1/2 with even floor: q > 1/2 forces ⌊q⌋ ≥ 1
    by_contra hcon
    have hfl : ⌊q⌋ = 0 := by omega
    rw [hfl] at hlt hgt
    push_cast at hlt hgt
    linarith
  · omega

/-- The argmin scan keeps the incumbent on ties, returns an element with
deviation at most every scanned deviation, and strictly improves the
incumbent whenever it moves off it. -/
theorem pickBestAux_spec (fref f : ℚ) : ∀ (l : List ℕ) (bN : ℕ),
    (pickBestAux fref f l bN (dev fref f bN) = bN ∨
      (pickBestAux fref f l bN (dev fref f bN) ∈ l ∧
        dev fref f (pickBestAux fref f l bN (dev fref f bN)) < dev fref f bN)) ∧
    dev fref f (pickBestAux fref f l bN (dev fref f bN)) ≤ dev fref f bN ∧
    ∀ M ∈ l, dev fref f (pickBestAux fref f l bN (dev fref f bN)) ≤ dev fref f M := by
  intro l
  induction l with
  | nil =>
    intro bN
    exact ⟨Or.inl rfl, le_refl _, fun M hM => absurd hM (List.not_mem_nil M)⟩
  | cons N Ns ih =>
    intro bN
    simp only [pickBestAux]
    by_cases hlt : dev fref f N < dev fref f bN
    · rw [if_pos hlt]
      obtain ⟨imem, ile, iall⟩ := ih N
      refine ⟨?_, by linarith, ?_⟩
      · rcases imem with he | ⟨hm, hs⟩
        · exact Or.inr ⟨by rw [he]; exact List.mem_cons_self N Ns, by rw [he]; exact hlt⟩
        · exact Or.inr ⟨List.mem_cons_of_mem N hm, by linarith⟩
      · intro M hM
        rcases List.mem_cons.mp hM with he | hm
        · rw [he]
          exact ile
        · exact iall M hm
    · rw [if_neg hlt]
      push_neg at hlt
      obtain ⟨imem, ile, iall⟩ := ih bN
      refine ⟨?_, ile, ?_⟩
      · rcases imem with he | ⟨hm, hs⟩
        · exact Or.inl he
        · exact Or.inr ⟨List.mem_cons_of_mem N hm, hs⟩
      · intro M hM
        rcases List.mem_cons.mp hM with he | hm
        · rw [he]
          linarith
        · exact iall M hm

/-- First-minimum tie-break of the argmin scan: on a strictly ascending
tail where every element exceeds the incumbent, any candidate numerically
below the result has strictly larger deviation. -/
theorem pickBestAux_first (fref f : ℚ) : ∀ (l : List ℕ) (bN : ℕ),
    (∀ x ∈ l, bN < x) → l.Pairwise (· < ·) →
    ∀ M, (M = bN ∨ M ∈ l) → M < pickBestAux fref f l bN (dev fref f bN) →
      dev fref f (pickBestAux fref f l bN (dev fref f bN)) < dev fref f M := by
  intro l
  induction l with
  | nil =>
    intro bN _ _ M hM hlt
    rcases hM with he | hm
    · subst he
      simp only [pickBestAux] at hlt
      omega
    · exact absurd hm (List.not_mem_nil M)
  | cons N Ns ih =>
    intro bN hgt hpw M hM hlt
    have hbN : bN < N := hgt N (List.mem_cons_self N Ns)
    have hNs_gtN : ∀ x ∈ Ns, N < x := fun x hx => (List.pairwise_cons.mp hpw).1 x hx
    have hNs_pw : Ns.Pairwise (· < ·) := (List.pairwise_cons.mp hpw).2
    simp only [pickBestAux] at hlt ⊢
    by_cases hc : dev fref f N < dev fref f bN
    · rw [if_pos hc] at hlt ⊢
      rcases hM with he | hm
      · -- M = bN: the result is N or beyond, with deviation ≤ dev N < dev bN
        subst he
        have hle := (pickBestAux_spec fref f Ns N).2.1
        linarith
      · rcases List.mem_cons.mp hm with he | hm'
        · exact ih N hNs_gtN hNs_pw M (Or.inl he) hlt
        · exact ih N hNs_gtN hNs_pw M (Or.inr hm') hlt
    · rw [if_neg hc] at hlt ⊢
      push_neg at hc
      rcases hM with he | hm
      · exact ih bN (fun x hx => lt_trans hbN (hNs_gtN x hx)) hNs_pw M (Or.inl he) hlt
      · rcases List.mem_cons.mp hm with he | hm'
        · -- M = N: the result either stays bN (< N, contradicting M < result)
          -- or moved into Ns with strictly smaller deviation than dev bN ≤ dev N
          subst he
          rcases (pickBestAux_spec fref f Ns bN).1 with hr | ⟨-, hs⟩
          · rw [hr] at hlt
            omega
          · linarith
        · exact ih bN (fun x hx => lt_trans hbN (hNs_gtN x hx)) hNs_pw M (Or.inr hm') hlt

/-- Full specification of the embedded `np.argmin` selection on a
nonempty strictly ascending candidate list: the result is a member, of
minimal deviation, and the numerically first among the minimizers. -/
theorem pickBest_spec (fref f : ℚ) (l : List ℕ) (hne : l ≠ [])
    (hpw : l.Pairwise (· < ·)) :
    ∃ r, pickBest fref f l = some r ∧ r ∈ l ∧
      (∀ M ∈ l, dev fref f r ≤ dev fref f M) ∧
      (∀ M ∈ l, M < r → dev fref f r < dev fref f M) := by
  cases l with
  | nil => exact absurd rfl hne
  | cons N Ns =>
    obtain ⟨imem, ile, iall⟩ := pickBestAux_spec fref f Ns N
    refine ⟨pickBestAux fref f Ns N (dev fref f N), rfl, ?_, ?_, ?_⟩
    · rcases imem with he | ⟨hm, -⟩
      · rw [he]; exact List.mem_cons_self N Ns
      · exact List.mem_cons_of_mem N hm
    · intro M hM
      rcases List.mem_cons.mp hM with he | hm
      · rw [he]; exact ile
      · exact iall M hm
    · intro M hM hlt
      have hNs_gtN : ∀ x ∈ Ns, N < x := fun x hx => (List.pairwise_cons.mp hpw).1 x hx
      have hNs_pw : Ns.Pairwise (· < ·) := (List.pairwise_cons.mp hpw).2
      rcases List.mem_cons.mp hM with he | hm
      · exact pickBestAux_first fref f Ns N hNs_gtN hNs_pw M (Or.inl he) hlt
      · exact pickBestAux_first fref f Ns N hNs_gtN hNs_pw M (Or.inr hm) hlt

theorem mem_candList {lo x : ℕ} {hi : ℤ} :
    x ∈ candList lo hi ↔ lo ≤ x ∧ (x : ℤ) < hi := by
  simp only [candList, List.mem_map, List.mem_range]
  constructor
  · rintro ⟨j, hj, rfl⟩
    omega
  · rintro ⟨h1, h2⟩
    exact ⟨x - lo, by omega, by omega⟩

theorem candList_pairwise (lo : ℕ) (hi : ℤ) :
    (candList lo hi).Pairwise (· < ·) :=
  (List.pairwise_lt_range _).map (· + lo) (fun a b h => by dsimp only; omega)

theorem candList_ne_nil {lo : ℕ} {hi : ℤ} (h : (lo : ℤ) < hi) :
    candList lo hi ≠ [] := by
  intro hcon
  have hmem : lo ∈ candList lo hi := mem_candList.mpr ⟨le_refl lo, h⟩
  rw [hcon] at hmem
  exact List.not_mem_nil lo hmem

/-- The Python return value of `set_frequency_optimally` is `None` on every
path: the method has no `return` statement. -/
theorem sfo_ret_none (st : S5iState) (f : ℚ) :
    (set_frequency_optimally st f).ret = none := by
  simp only [set_frequency_optimally]
  repeat' split
  all_goals rfl

/-- The success branch of `set_frequency_optimally`, with the selected
candidate `N` and every derived quantity explicit. -/
theorem set_frequency_optimally_eq_success (st : S5iState) (f : ℚ) (N : ℕ)
    (h1 : ¬ (f > 4.4e9 ∨ f < 40e6)) (h2 : ¬ st.spi_ref = 0)
    (hplan : optimalPlanN st.spi_ref f (if f ≥ 3.6e9 then 75 else 23) = some N)
    (hR : ¬ rhe ((N : ℚ) * st.spi_ref / f) = 0) :
    set_frequency_optimally st f =
      ⟨{ st with
          rf_frequency := (N : ℚ) * st.spi_ref / ((rhe ((N : ℚ) * st.spi_ref / f) : ℤ) : ℚ),
          registers :=
          { st.registers with
            r4 := (computeDiv f <<< 20) |||
              (bandSelect (st.spi_ref / ((rhe ((N : ℚ) * st.spi_ref / f) : ℤ) : ℚ)) <<< 12) |||
              (st.output_status <<< 5) ||| (3 <<< 3) ||| 4
            r2 := ((rhe ((N : ℚ) * st.spi_ref / f)).toNat <<< 14) |||
              (1 <<< 13) ||| (7 <<< 9) ||| (1 <<< 8) ||| (1 <<< 7) ||| (1 <<< 6) ||| 2
            r1 := ((if f ≥ 3.6e9 then (1 : ℕ) else 0) <<< 27) ||| (2 <<< 3) ||| 1
            r0 := N <<< 15 } },
      none,
      write_registers
        { st.registers with
          r4 := (computeDiv f <<< 20) |||
            (bandSelect (st.spi_ref / ((rhe ((N : ℚ) * st.spi_ref / f) : ℤ) : ℚ)) <<< 12) |||
            (st.output_status <<< 5) ||| (3 <<< 3) ||| 4
          r2 := ((rhe ((N : ℚ) * st.spi_ref / f)).toNat <<< 14) |||
            (1 <<< 13) ||| (7 <<< 9) ||| (1 <<< 8) ||| (1 <<< 7) ||| (1 <<< 6) ||| 2
          r1 := ((if f ≥ 3.6e9 then (1 : ℕ) else 0) <<< 27) ||| (2 <<< 3) ||| 1
          r0 := N <<< 15 },
      none,
      decide ((N : ℚ) * st.spi_ref / ((rhe ((N : ℚ) * st.spi_ref / f) : ℤ) : ℚ) ≠ f)⟩ := by
  simp only [set_frequency_optimally]
  rw [if_neg h1, if_neg h2]
  simp only [hplan]
  rw [if_neg hR]

/-- Core success property of the optimal planner: with `0 < fref` and
`4*fref ≤ f` (true of the standard 10 MHz backplane reference for every
in-range target), the candidate array is nonempty and the selected
candidate rounds to a reference divisor `R ≥ 1`, because some candidate
near `23·f/fref` deviates by at most `fref/(2f) < 23·fref/f`, the
deviation of any candidate whose `R_real` would round to zero. -/
theorem optimalPlan_success (fref f : ℚ) (Nmin : ℕ)
    (hfref : 0 < fref) (hq : 4 * fref ≤ f)
    (hNmin : 23 ≤ Nmin) (hNmin' : Nmin ≤ 75) :
    ∃ N, pickBest fref f (candList Nmin (pyTrunc (1023 * f / fref))) = some N ∧
      Nmin ≤ N ∧ (N : ℤ) < pyTrunc (1023 * f / fref) ∧
      1 ≤ rhe ((N : ℚ) * fref / f) := by
  have hfpos : 0 < f := lt_of_lt_of_le (by positivity) hq
  set q : ℚ := f / fref with hq_def
  have hqpos : 0 < q := by positivity
  have hq4 : 4 ≤ q := by
    rw [hq_def, le_div_iff hfref]
    linarith
  have hargq : 1023 * f / fref = 1023 * q := by
    rw [hq_def]
    ring
  -- Nmax = ⌊1023q⌋ ≥ 4092
  have hNmax_floor : pyTrunc (1023 * f / fref) = ⌊1023 * q⌋ := by
    unfold pyTrunc
    rw [if_pos (by positivity), hargq]
  have hNmax_ge : (4092 : ℤ) ≤ pyTrunc (1023 * f / fref) := by
    rw [hNmax_floor]
    rw [Int.le_floor]
    push_cast
    linarith
  set Nmax : ℤ := pyTrunc (1023 * f / fref) with hNmax_def
  have hNmax_gt : (1023 * q) - 1 < (Nmax : ℚ) := by
    rw [hNmax_floor]
    exact_mod_cast Int.sub_one_lt_floor (1023 * q)
  -- the witness candidate M = ⌊23q + 1/2⌋
  set Mz : ℤ := ⌊23 * q + 1/2⌋ with hMz_def
  have hMz_ge : (92 : ℤ) ≤ Mz := by
    rw [hMz_def, Int.le_floor]
    push_cast
    linarith
  have hMz_le : (Mz : ℚ) ≤ 23 * q + 1/2 := Int.floor_le _
  have hMz_gt : 23 * q + 1/2 - 1 < (Mz : ℚ) := Int.sub_one_lt_floor _
  have hMz_lt_Nmax : Mz < Nmax := by
    have : (Mz : ℚ) < (Nmax : ℚ) := by linarith
    exact_mod_cast this
  set M : ℕ := Mz.toNat with hM_def
  have hM_cast : (M : ℤ) = Mz := Int.toNat_of_nonneg (by omega)
  have hM_castQ : (M : ℚ) = (Mz : ℚ) := by exact_mod_cast hM_cast
  have hM_mem : M ∈ candList Nmin Nmax :=
    mem_candList.mpr ⟨by omega, by omega⟩
  -- R_real of a candidate x is x/q
  have hRreal : ∀ x : ℕ, (x : ℚ) * fref / f = (x : ℚ) / q := by
    intro x
    rw [hq_def]
    field_simp
  -- dev of M is at most (1/2)/q
  have hdevM : dev fref f M ≤ (1/2) / q := by
    unfold dev
    rw [hRreal M]
    have h23 : |(M : ℚ) / q - ((23 : ℤ) : ℚ)| = |(M : ℚ) - 23 * q| / q := by
      have harg : (M : ℚ) / q - ((23 : ℤ) : ℚ) = ((M : ℚ) - 23 * q) / q := by
        rw [sub_div, mul_div_assoc, div_self hqpos.ne', mul_one]
        norm_num
      rw [harg, abs_div, abs_of_pos hqpos]
    have hMnear : |(M : ℚ) - 23 * q| ≤ 1/2 := by
      rw [hM_castQ]
      rw [abs_le]
      constructor <;> linarith
    calc |(M : ℚ) / q - (rhe ((M : ℚ) / q) : ℚ)|
        ≤ |(M : ℚ) / q - ((23 : ℤ) : ℚ)| := rhe_nearest _ 23
      _ = |(M : ℚ) - 23 * q| / q := h23
      _ ≤ (1/2) / q := by
          rw [div_le_div_iff_of_pos_right hqpos]
          exact hMnear
  -- run the argmin scan
  obtain ⟨r, hropt, hrmem, hrmin, -⟩ :=
    pickBest_spec fref f (candList Nmin Nmax)
      (candList_ne_nil (by omega)) (candList_pairwise _ _)
  obtain ⟨hrlo, hrhi⟩ := mem_candList.mp hrmem
  have hrdev : dev fref f r ≤ (1/2) / q := le_trans (hrmin M hM_mem) hdevM
  -- the selected R_real exceeds 1/2, so it rounds to at least 1
  have hrhalf : 1/2 < (r : ℚ) * fref / f := by
    by_contra hle
    push_neg at hle
    rw [hRreal r] at hle
    have hx0 : (0 : ℚ) ≤ (r : ℚ) / q := by positivity
    have hrhe0 : rhe ((r : ℚ) / q) = 0 := rhe_zero_of_le_half _ hx0 hle
    have hdevr : dev fref f r = (r : ℚ) / q := by
      unfold dev
      rw [hRreal r, hrhe0]
      push_cast
      rw [sub_zero, abs_of_nonneg hx0]
    have hr23 : (23 : ℚ) / q ≤ (r : ℚ) / q := by
      rw [div_le_div_iff_of_pos_right hqpos]
      exact_mod_cast le_trans hNmin hrlo
    have : (1/2) / q < (23 : ℚ) / q := by
      rw [div_lt_div_iff_of_pos_right hqpos]
      norm_num
    rw [hdevr] at hrdev
    linarith
  exact ⟨r, hropt, hrlo, hrhi, rhe_ge_one_of_gt_half _ hrhalf⟩

/-- A state whose backplane reference was set to 2 GHz via
`spi_rack.set_ref_frequency` (the setter accepts any value). -/
def stC : S5iState := ⟨100e6, 1e6, 10e6, 2e9, 1, ⟨0, 0, 0, 0, 0, 0⟩⟩

/-- C7 counterexample: `set_frequency_optimally` returns `None` — not the
achieved frequency — even on a successful run (the method has no `return`
statement); and for the in-range `f = 40e6` with a 2 GHz backplane
reference the candidate range `[23, 20)` is empty and `np.argmin` raises,
so in-range input alone does not guarantee the call cannot raise. -/
theorem c7_counterexample :
    (set_frequency_optimally stA 1e9).ret = none ∧
    (set_frequency_optimally stC 40e6).err = some SpiErr.emptyArgmin := by
  refine ⟨sfo_ret_none stA 1e9, ?_⟩
  have hplan : optimalPlanN stC.spi_ref 40e6 (if (40e6 : ℚ) ≥ 3.6e9 then 75 else 23) = none := by
    simp only [stC]
    rw [if_neg (by norm_num)]
    unfold optimalPlanN
    rw [pyTrunc_eq_nat 20 (by norm_num) (by norm_num)]
    rw [(by decide : candList 23 ((20 : ℕ) : ℤ) = [])]
    rfl
  simp only [set_frequency_optimally]
  rw [if_neg (by norm_num), if_neg (by norm_num [stC])]
  simp only [hplan]

/-- C7 amended: for every in-range target, when the backplane reference is
positive and at most a quarter of the target (true of the standard 10 MHz
reference), `set_frequency_optimally` raises no error; it records the
achieved frequency `N·fref/R` in `rf_frequency`, flags the printed warning
exactly when that differs from the request — and returns `None` rather
than the actual frequency. -/
theorem c7_optimally_no_raise (st : S5iState) (f : ℚ)
    (hlo : 40e6 ≤ f) (hhi : f ≤ 4.4e9)
    (hfref : 0 < st.spi_ref) (hq : 4 * st.spi_ref ≤ f) :
    ∃ N : ℕ,
      optimalPlanN st.spi_ref f (if f ≥ 3.6e9 then 75 else 23) = some N ∧
      1 ≤ rhe ((N : ℚ) * st.spi_ref / f) ∧
      (set_frequency_optimally st f).err = none ∧
      (set_frequency_optimally st f).ret = none ∧
      (set_frequency_optimally st f).state.rf_frequency =
        (N : ℚ) * st.spi_ref / ((rhe ((N : ℚ) * st.spi_ref / f) : ℤ) : ℚ) ∧
      ((set_frequency_optimally st f).warned = true ↔
        (N : ℚ) * st.spi_ref / ((rhe ((N : ℚ) * st.spi_ref / f) : ℤ) : ℚ) ≠ f) := by
  have hNmin : 23 ≤ (if f ≥ 3.6e9 then (75 : ℕ) else 23) := by split <;> norm_num
  have hNmin' : (if f ≥ 3.6e9 then (75 : ℕ) else 23) ≤ 75 := by split <;> norm_num
  obtain ⟨N, hplan, hNlo, hNhi, hrhe⟩ :=
    optimalPlan_success st.spi_ref f _ hfref hq hNmin hNmin'
  have hplan' : optimalPlanN st.spi_ref f (if f ≥ 3.6e9 then 75 else 23) = some N := hplan
  have h1 : ¬ (f > 4.4e9 ∨ f < 40e6) := by push_neg; exact ⟨hhi, hlo⟩
  have h2 : ¬ st.spi_ref = 0 := ne_of_gt hfref
  have hR : ¬ rhe ((N : ℚ) * st.spi_ref / f) = 0 := by omega
  refine ⟨N, hplan', hrhe, ?_, ?_, ?_, ?_⟩ <;>
      rw [set_frequency_optimally_eq_success st f N h1 h2 hplan' hR] <;>
    simp

/-- C7 witness: the defaults (10 MHz backplane reference) with
`f = 1e9`. -/
theorem c7_optimally_no_raise_witness :
    ∃ N : ℕ,
      optimalPlanN stA.spi_ref 1e9 (if (1e9 : ℚ) ≥ 3.6e9 then 75 else 23) = some N ∧
      1 ≤ rhe ((N : ℚ) * stA.spi_ref / 1e9) ∧
      (set_frequency_optimally stA 1e9).err = none ∧
      (set_frequency_optimally stA 1e9).ret = none ∧
      (set_frequency_optimally stA 1e9).state.rf_frequency =
        (N : ℚ) * stA.spi_ref / ((rhe ((N : ℚ) * stA.spi_ref / 1e9) : ℤ) : ℚ) ∧
      ((set_frequency_optimally stA 1e9).warned = true ↔
        (N : ℚ) * stA.spi_ref / ((rhe ((N : ℚ) * stA.spi_ref / 1e9) : ℤ) : ℚ) ≠ 1e9) :=
  c7_optimally_no_raise stA 1e9 (by norm_num) (by norm_num)
    (by norm_num [stA]) (by norm_num [stA])

/-- The candidate search as the spec's words describe it, for comparison
with the code: candidates drawn from the INCLUSIVE range `[Nmin, Nmax]`
with `Nmax = floor(1023*f/fref)` (the code's `np.arange(Nmin, Nmax)` stops
at `Nmax - 1`). -/
def optimalPlanNSpec (fref f : ℚ) (Nmin : ℕ) : Option ℕ :=
  pickBest fref f (candList Nmin (pyTrunc (1023 * f / fref) + 1))

/-- A state whose backplane reference was set to 2.046 GHz. -/
def stD : S5iState := ⟨100e6, 1e6, 10e6, 2.046e9, 1, ⟨0, 0, 0, 0, 0, 0⟩⟩

theorem dev_2046_48_23 : dev (2.046e9 : ℚ) 48e6 23 = 3/8 := by
  unfold dev
  rw [show ((23 : ℕ) : ℚ) * 2.046e9 / 48e6 = 7843/8 from by norm_num]
  rw [rhe_eq_of_lt_half 980 (by norm_num) (by norm_num)]
  norm_num

theorem dev_2046_48_24 : dev (2.046e9 : ℚ) 48e6 24 = 0 := by
  unfold dev
  rw [show ((24 : ℕ) : ℚ) * 2.046e9 / 48e6 = 1023 from by norm_num]
  rw [rhe_eq_of_lt_half 1023 (by norm_num) (by norm_num)]
  norm_num

theorem optimalPlanN_2046_48 : optimalPlanN (2.046e9 : ℚ) 48e6 23 = some 23 := by
  unfold optimalPlanN
  rw [pyTrunc_eq_nat 24 (by norm_num) (by norm_num)]
  rw [(by decide : candList 23 ((24 : ℕ) : ℤ) = [23])]
  rfl

theorem optimalPlanNSpec_2046_48 : optimalPlanNSpec (2.046e9 : ℚ) 48e6 23 = some 24 := by
  unfold optimalPlanNSpec
  rw [pyTrunc_eq_nat 24 (by norm_num) (by norm_num)]
  rw [(by decide : candList 23 (((24 : ℕ) : ℤ) + 1) = [23, 24])]
  simp only [pickBest, pickBestAux]
  rw [dev_2046_48_24, dev_2046_48_23]
  rw [if_pos (by norm_num : (0 : ℚ) < 3/8)]

/-- Evaluation of `set_frequency_optimally(48e6)` from `stD`
(2.046 GHz backplane reference): the run succeeds and selects `N = 23`. -/
theorem sfo_stD_facts :
    (set_frequency_optimally stD 48e6).err = none ∧
    (set_frequency_optimally stD 48e6).state.registers.r0 = 23 <<< 15 := by
  have hplan : optimalPlanN stD.spi_ref 48e6 (if (48e6 : ℚ) ≥ 3.6e9 then 75 else 23) = some 23 := by
    simp only [stD]
    rw [if_neg (by norm_num)]
    exact optimalPlanN_2046_48
  have hR : ¬ rhe ((23 : ℕ) * stD.spi_ref / (48e6 : ℚ)) = 0 := by
    simp only [stD]
    rw [show ((23 : ℕ) : ℚ) * 2.046e9 / 48e6 = 7843/8 from by norm_num]
    rw [rhe_eq_of_lt_half 980 (by norm_num) (by norm_num)]
    norm_num
  rw [set_frequency_optimally_eq_success stD 48e6 23 (by norm_num) (by norm_num [stD]) hplan hR]
  exact ⟨rfl, rfl⟩

/-- C5 counterexample: with a 2.046 GHz reference and `f = 48e6`,
`Nmax = int(1023·f/fref) = 24`; the code searches `np.arange(23, 24) = [23]`
and selects `N = 23` (deviation 3/8) although the spec's inclusive range
`[23, 24]` contains the exact candidate `N = 24` (deviation 0), which the
spec-described search selects. -/
theorem c5_counterexample :
    optimalPlanN (2.046e9 : ℚ) 48e6 23 = some 23 ∧
    optimalPlanNSpec (2.046e9 : ℚ) 48e6 23 = some 24 ∧
    dev (2.046e9 : ℚ) 48e6 24 = 0 ∧
    dev (2.046e9 : ℚ) 48e6 23 = 3/8 ∧
    (set_frequency_optimally stD 48e6).err = none ∧
    (set_frequency_optimally stD 48e6).state.registers.r0 = 23 <<< 15 :=
  ⟨optimalPlanN_2046_48, optimalPlanNSpec_2046_48, dev_2046_48_24, dev_2046_48_23,
    sfo_stD_facts.1, sfo_stD_facts.2⟩

/-- Inversion: a successful `set_frequency_optimally` run passed the range
check, had a nonzero reference, selected some candidate `N` and rounded to
a nonzero `R`. -/
theorem sfo_of_err_none (st : S5iState) (f : ℚ) :
    (set_frequency_optimally st f).err = none →
    ¬ (f > 4.4e9 ∨ f < 40e6) ∧ ¬ st.spi_ref = 0 ∧
    ∃ N, optimalPlanN st.spi_ref f (if f ≥ 3.6e9 then 75 else 23) = some N ∧
      ¬ rhe ((N : ℚ) * st.spi_ref / f) = 0 := by
  simp only [set_frequency_optimally]
  split
  · intro h
    simp at h
  · rename_i hnr
    split
    · intro h
      simp at h
    · rename_i hns
      split
      · intro h
        simp at h
      · rename_i N heq
        split
        · intro h
          simp at h
        · rename_i hR
          intro h
          exact ⟨hnr, hns, N, heq, hR⟩

/-- C5 amended: on every successful run, the selected feedback integer `N`
(encoded at bit 15 of REG0) is drawn from the half-open ascending range
`[Nmin, Nmax)` with `Nmax = int(1023·f/fref)` — `Nmax` itself excluded,
unlike the spec's inclusive `[Nmin, Nmax]` — it minimizes
`|R_real - around(R_real)|` over that range, it is the numerically first
such minimizer, and `R = around(N·fref/f)` is encoded at bit 14 of
REG2. -/
theorem c5_first_minimizer_exclusive (st : S5iState) (f : ℚ)
    (h : (set_frequency_optimally st f).err = none) :
    ∃ N : ℕ,
      optimalPlanN st.spi_ref f (if f ≥ 3.6e9 then 75 else 23) = some N ∧
      (set_frequency_optimally st f).state.registers.r0 = N <<< 15 ∧
      (set_frequency_optimally st f).state.registers.r2 =
        ((rhe ((N : ℚ) * st.spi_ref / f)).toNat <<< 14) ||| (1 <<< 13) |||
          (7 <<< 9) ||| (1 <<< 8) ||| (1 <<< 7) ||| (1 <<< 6) ||| 2 ∧
      (if f ≥ 3.6e9 then 75 else 23) ≤ N ∧
      (N : ℤ) < pyTrunc (1023 * f / st.spi_ref) ∧
      (∀ M : ℕ, (if f ≥ 3.6e9 then 75 else 23) ≤ M →
        (M : ℤ) < pyTrunc (1023 * f / st.spi_ref) →
        dev st.spi_ref f N ≤ dev st.spi_ref f M) ∧
      (∀ M : ℕ, (if f ≥ 3.6e9 then 75 else 23) ≤ M → M < N →
        dev st.spi_ref f N < dev st.spi_ref f M) := by
  obtain ⟨h1, h2, N, hplan, hR⟩ := sfo_of_err_none st f h
  have hne : candList (if f ≥ 3.6e9 then 75 else 23) (pyTrunc (1023 * f / st.spi_ref)) ≠ [] := by
    intro hnil
    have : optimalPlanN st.spi_ref f (if f ≥ 3.6e9 then 75 else 23) = none := by
      unfold optimalPlanN
      rw [hnil]
      rfl
    rw [this] at hplan
    exact Option.noConfusion hplan
  obtain ⟨r, hr_eq, hrmem, hrmin, hrfirst⟩ :=
    pickBest_spec st.spi_ref f _ hne (candList_pairwise _ _)
  have hNr : N = r := by
    have : optimalPlanN st.spi_ref f (if f ≥ 3.6e9 then 75 else 23) = some r := hr_eq
    rw [this] at hplan
    exact (Option.some.injEq _ _ ▸ hplan).symm
  subst hNr
  obtain ⟨hrlo, hrhi⟩ := mem_candList.mp hrmem
  refine ⟨N, hplan, ?_, ?_, hrlo, hrhi, ?_, ?_⟩
  · rw [set_frequency_optimally_eq_success st f N h1 h2 hplan hR]
  · rw [set_frequency_optimally_eq_success st f N h1 h2 hplan hR]
  · intro M hMlo hMhi
    exact hrmin M (mem_candList.mpr ⟨hMlo, hMhi⟩)
  · intro M hMlo hMlt
    exact hrfirst M (mem_candList.mpr ⟨hMlo, by omega⟩) hMlt

/-- C5 witness: the successful run `set_frequency_optimally(48e6)` from
`stD`. -/
theorem c5_first_minimizer_exclusive_witness :
    ∃ N : ℕ,
      optimalPlanN stD.spi_ref 48e6 (if (48e6 : ℚ) ≥ 3.6e9 then 75 else 23) = some N ∧
      (set_frequency_optimally stD 48e6).state.registers.r0 = N <<< 15 ∧
      (set_frequency_optimally stD 48e6).state.registers.r2 =
        ((rhe ((N : ℚ) * stD.spi_ref / 48e6)).toNat <<< 14) ||| (1 <<< 13) |||
          (7 <<< 9) ||| (1 <<< 8) ||| (1 <<< 7) ||| (1 <<< 6) ||| 2 ∧
      (if (48e6 : ℚ) ≥ 3.6e9 then 75 else 23) ≤ N ∧
      (N : ℤ) < pyTrunc (1023 * 48e6 / stD.spi_ref) ∧
      (∀ M : ℕ, (if (48e6 : ℚ) ≥ 3.6e9 then 75 else 23) ≤ M →
        (M : ℤ) < pyTrunc (1023 * 48e6 / stD.spi_ref) →
        dev stD.spi_ref 48e6 N ≤ dev stD.spi_ref 48e6 M) ∧
      (∀ M : ℕ, (if (48e6 : ℚ) ≥ 3.6e9 then 75 else 23) ≤ M → M < N →
        dev stD.spi_ref 48e6 N < dev stD.spi_ref 48e6 M) :=
  c5_first_minimizer_exclusive stD 48e6 sfo_stD_facts.1
